import Mathlib

/-!
Shallow embedding of the chroma-sync core (delta engine, document chunker,
sync session state machine, batch-success policy) and proofs about it.

Modelling conventions, applied throughout:
* JavaScript numbers used as millisecond epochs or signed quantities become
  `Int`; sizes and counts become `Nat`; exact arithmetic on fractions
  (`processed / total`, `Math.round`, `Math.ceil`) is carried out in `ℚ`.
* TypeScript string-literal union types (`'markdown' | 'text'`,
  `'running' | 'paused' | ...`) are kept as `String` values, and the code's
  `===` comparisons become string equality.
* JavaScript objects used as string-keyed records become association lists
  `List (String × _)` (first match wins, insertion order preserved, new keys
  appended), and `Set` becomes a duplicate-free `List` in insertion order.
* Per-character regex character classes are translated character by character;
  `\s` is translated over the ASCII whitespace characters.
-/

/-- JS `\s` on the ASCII range: space, tab, newline, carriage return,
vertical tab, form feed. -/
def isWs (c : Char) : Bool :=
  c = ' ' || c = '\t' || c = '\n' || c = '\r' || c = '\x0b' || c = '\x0c'

/-- `String.prototype.trim` on a character list: drop whitespace at both ends. -/
def jsTrimL (l : List Char) : List Char :=
  ((l.dropWhile isWs).reverse.dropWhile isWs).reverse

/-- `String.prototype.trim`. -/
def jsTrimS (s : String) : String :=
  ⟨jsTrimL s.data⟩

/-- `a.startsWith(b)` on strings. -/
def strStarts (s pat : String) : Bool :=
  decide (s.data.take pat.data.length = pat.data)

/-- `startsL pat s`: `pat` is an initial segment of `s` (character lists). -/
def startsL : List Char → List Char → Bool
  | [], _ => true
  | _ :: _, [] => false
  | p :: ps, c :: cs => p = c && startsL ps cs

/-- `s.includes(pat)` on character lists: `pat` occurs contiguously in `s`. -/
def hasSub (pat : List Char) : List Char → Bool
  | [] => startsL pat []
  | c :: cs => startsL pat (c :: cs) || hasSub pat cs

/-- `s.includes(pat)` on strings. -/
def strIncludes (s pat : String) : Bool :=
  hasSub pat.data s.data

/-- `Math.round`: round half toward positive infinity, on exact rationals. -/
def jsRound (x : ℚ) : Int :=
  ⌊x + 1 / 2⌋

/-- `Math.ceil` on exact rationals. -/
def jsCeil (x : ℚ) : Int :=
  ⌈x⌉

/-! ## Delta engine (`src/delta.ts`) -/

/-- `FileMetadata` from `delta.ts`. -/
structure FileMetadata where
  path : String
  hash : String
  mtime : Int
  size : Int
  deriving Repr, DecidableEq

/-- The `partialSync` record of `FileState`: retry bookkeeping for files that
failed to sync. `retryCount` is a string-keyed record, modelled as an
association list. -/
structure PartialSyncRec where
  failedFiles : List String
  retryCount : List (String × Nat)
  lastFailure : Int
  deriving Repr, DecidableEq

/-- Verification status union `'pending' | 'verified' | 'inconsistent'`,
kept as strings per the conventions above would be possible, but this union
is closed and never compared with data, so an inductive is used. -/
inductive VerificationStatus where
  | pending
  | verified
  | inconsistent
  deriving Repr, DecidableEq

/-- The `inconsistencies` record inside `chromaState`. -/
structure Inconsistencies where
  missingInChroma : List String
  extraInChroma : List String
  lastChecked : Int
  deriving Repr, DecidableEq

/-- The `chromaState` record of `FileState`. -/
structure ChromaStateRec where
  lastVerification : Int
  verificationStatus : VerificationStatus
  inconsistencies : Option Inconsistencies
  deriving Repr, DecidableEq

/-- `FileState` from `delta.ts`: the persisted snapshot of the vault, with
optional partial-sync and verification bookkeeping. -/
structure FileState where
  files : List (String × FileMetadata)
  lastSync : Int
  version : Nat
  partialSync : Option PartialSyncRec
  chromaState : Option ChromaStateRec
  deriving Repr, DecidableEq

/-- The character class `[a-zA-Z0-9_.-]` of `getDocumentId`'s second regex. -/
def isIdChar (c : Char) : Bool :=
  ('a' ≤ c && c ≤ 'z') || ('A' ≤ c && c ≤ 'Z') || ('0' ≤ c && c ≤ '9') ||
    c = '_' || c = '.' || c = '-'

/-- `DeltaEngine.getDocumentId`:
`path.replace(/[/\\]/g, '_').replace(/[^a-zA-Z0-9_.-]/g, '_')`. -/
def getDocumentId (path : String) : String :=
  ⟨(path.data.map fun c => if c = '/' || c = '\\' then '_' else c).map
      fun c => if isIdChar c then c else '_'⟩

/-- `[...new Set(l)]` in JS: remove duplicates keeping the first occurrence,
in insertion order. `seen` is the set built so far. -/
def jsSetDedupAux (seen : List String) : List String → List String
  | [] => []
  | x :: xs =>
    if x ∈ seen then jsSetDedupAux seen xs
    else x :: jsSetDedupAux (x :: seen) xs

/-- `[...new Set(l)]` in JS. -/
def jsSetDedup (l : List String) : List String :=
  jsSetDedupAux [] l

/-- Lookup in a string-keyed record (association list), first match wins. -/
def rcGet : List (String × Nat) → String → Option Nat
  | [], _ => none
  | e :: rest, k => if e.1 = k then some e.2 else rcGet rest k

/-- `rc[f] = (rc[f] || 0) + 1` on a string-keyed record: update the entry in
place if the key is present, otherwise append a fresh entry with value 1. -/
def rcIncr (rc : List (String × Nat)) (f : String) : List (String × Nat) :=
  if (rcGet rc f).isSome then
    rc.map fun e => if e.1 = f then (e.1, e.2 + 1) else e
  else rc ++ [(f, 1)]

/-- `DeltaEngine.markFilesFailed` with `Date.now()` passed explicitly. -/
def markFilesFailed (now : Int) (state : FileState) (failedFiles : List String) :
    FileState :=
  let currentPartialSync := state.partialSync.getD ⟨[], [], now⟩
  let updatedFailedFiles := jsSetDedup (currentPartialSync.failedFiles ++ failedFiles)
  let updatedRetryCount := failedFiles.foldl rcIncr currentPartialSync.retryCount
  { state with
    partialSync := some ⟨updatedFailedFiles, updatedRetryCount, now⟩ }

/-- `DeltaEngine.markFilesSucceeded`. -/
def markFilesSucceeded (state : FileState) (succeededFiles : List String) :
    FileState :=
  match state.partialSync with
  | none => state
  | some ps =>
    let remainingFailedFiles := ps.failedFiles.filter fun f => decide (f ∉ succeededFiles)
    let updatedRetryCount := ps.retryCount.filter fun e => decide (e.1 ∉ succeededFiles)
    { state with
      partialSync :=
        if 0 < remainingFailedFiles.length then
          some { ps with
                 failedFiles := remainingFailedFiles
                 retryCount := updatedRetryCount }
        else none }

/-- `DeltaEngine.getRetryableFiles`. -/
def getRetryableFiles (state : FileState) (maxRetries : Nat := 3) : List String :=
  match state.partialSync with
  | none => []
  | some ps => ps.failedFiles.filter fun f => decide ((rcGet ps.retryCount f).getD 0 < maxRetries)

/-- `DeltaEngine.needsVerification` with `Date.now()` passed explicitly:
`(now - lastVerification) / (1000 * 60 * 60) >= 24`, the division exact. -/
def needsVerification (now : Int) (state : FileState) : Bool :=
  match state.chromaState with
  | none => true
  | some cs =>
    decide ((24 : ℚ) ≤ ((now - cs.lastVerification : Int) : ℚ) / (1000 * 60 * 60))

/-- The failed-files list of a state's partial-sync record, `[]` when the
record is absent. -/
def prevFailedFiles (state : FileState) : List String :=
  state.partialSync.elim [] (·.failedFiles)

/-- The retry-count record of a state's partial-sync record, empty when the
record is absent. -/
def prevRetryCount (state : FileState) : List (String × Nat) :=
  state.partialSync.elim [] (·.retryCount)

/-! ## Sync session state machine (`src/sync-state.ts`) -/

/-- `DeltaAction` from `delta.ts`: `action` is `'upsert' | 'delete'`, kept as a
string; `metadata` carries no claim-relevant structure and is modelled as a
string-keyed record of strings. -/
structure DeltaAction where
  action : String
  id : String
  path : Option String := none
  text : Option String := none
  metadata : Option (List (String × String)) := none
  deriving Repr, DecidableEq

/-- `SyncSession` from `sync-state.ts`; `state` is the string union
`'idle' | 'running' | 'paused' | 'stopping' | 'stopped'`, `processedIds`
(a JS `Set`) a list of strings. -/
structure SyncSession where
  id : String
  state : String
  startTime : Int
  pauseTime : Option Int := none
  resumeTime : Option Int := none
  totalActions : Nat
  processedActions : Nat
  remainingActions : List DeltaAction
  processedIds : List String
  errors : List String
  lastCheckpointTime : Int
  batchSize : Nat
  deriving Repr, DecidableEq

/-- `SyncProgress` from `sync-state.ts`. -/
structure SyncProgress where
  processed : Nat
  total : Nat
  percentage : Int
  remaining : Int
  currentBatch : Int
  totalBatches : Int
  state : String
  elapsedTime : Int
  estimatedTimeRemaining : Option Int
  deriving Repr, DecidableEq

/-- `SyncStateManager.getProgress` on a live session, `Date.now()` passed
explicitly. `pauseTime || now` is JS truthiness: an absent or zero pause time
falls back to `now`. -/
def getProgressOf (now : Int) (s : SyncSession) : SyncProgress :=
  let processed := s.processedActions
  let total := s.totalActions
  let remaining : Int := (total : Int) - (processed : Int)
  let percentage : Int :=
    if 0 < total then jsRound (((processed : ℚ) / (total : ℚ)) * 100) else 0
  let currentTime : Int :=
    match s.pauseTime with
    | some t => if t ≠ 0 then t else now
    | none => now
  let elapsedTime := currentTime - s.startTime
  let estimatedTimeRemaining : Option Int :=
    if 0 < processed ∧ s.state = "running" then
      some (jsRound (((elapsedTime : ℚ) / (processed : ℚ)) * (remaining : ℚ)))
    else none
  let totalBatches : Int := jsCeil ((total : ℚ) / (s.batchSize : ℚ))
  let currentBatch : Int := jsCeil ((processed : ℚ) / (s.batchSize : ℚ))
  { processed := processed
    total := total
    percentage := percentage
    remaining := remaining
    currentBatch := max 1 currentBatch
    totalBatches := max 1 totalBatches
    state := s.state
    elapsedTime := elapsedTime
    estimatedTimeRemaining := estimatedTimeRemaining }

/-- `SyncStateManager.getProgress`, `null` when there is no current session. -/
def getProgress (now : Int) (currentSession : Option SyncSession) : Option SyncProgress :=
  currentSession.map (getProgressOf now)

/-- A JSON value, for the persisted session file that `loadSession` parses
and validates. -/
inductive JValue where
  | jnull
  | jbool (b : Bool)
  | jnum (n : Int)
  | jstr (s : String)
  | jarr (elems : List JValue)
  | jobj (fields : List (String × JValue))

/-- Field access `j[k]` on a parsed JSON value: `none` both for a missing
field and for a non-object (JS `undefined`). -/
def jGet (j : JValue) (k : String) : Option JValue :=
  match j with
  | .jobj fields => (fields.find? fun f => f.1 = k).map (·.2)
  | _ => none

/-- `typeof x === 'string'` on an optional JSON field. -/
def jIsStr : Option JValue → Bool
  | some (.jstr _) => true
  | _ => false

/-- `typeof x === 'number'` on an optional JSON field. -/
def jIsNum : Option JValue → Bool
  | some (.jnum _) => true
  | _ => false

/-- `Array.isArray(x)` on an optional JSON field. -/
def jIsArr : Option JValue → Bool
  | some (.jarr _) => true
  | _ => false

/-- `SyncStateManager.isValidSession`: presence and type of each required
field. A non-object has no fields, so every check fails, as in JS where the
property access yields `undefined`. -/
def isValidSession (j : JValue) : Bool :=
  jIsStr (jGet j "id") &&
  jIsStr (jGet j "state") &&
  jIsNum (jGet j "startTime") &&
  jIsNum (jGet j "totalActions") &&
  jIsNum (jGet j "processedActions") &&
  jIsArr (jGet j "remainingActions") &&
  jIsArr (jGet j "errors") &&
  jIsNum (jGet j "lastCheckpointTime") &&
  jIsNum (jGet j "batchSize")

/-- String field with default, as the TS cast reads it. -/
def jStrD (j : JValue) (k : String) (d : String) : String :=
  match jGet j k with
  | some (.jstr s) => s
  | _ => d

/-- Numeric field with default. -/
def jNumD (j : JValue) (k : String) (d : Int) : Int :=
  match jGet j k with
  | some (.jnum n) => n
  | _ => d

/-- Optional numeric field. -/
def jNumOpt (j : JValue) (k : String) : Option Int :=
  match jGet j k with
  | some (.jnum n) => some n
  | _ => none

/-- Array field, `[]` when absent or of another type. -/
def jArrD (j : JValue) (k : String) : List JValue :=
  match jGet j k with
  | some (.jarr xs) => xs
  | _ => []

/-- A persisted `DeltaAction`, as the TS cast reads it back. -/
def jsonToAction (j : JValue) : DeltaAction :=
  { action := jStrD j "action" ""
    id := jStrD j "id" ""
    path := match jGet j "path" with | some (.jstr s) => some s | _ => none
    text := match jGet j "text" with | some (.jstr s) => some s | _ => none
    metadata := none }

/-- The string elements of a JSON array. -/
def jStrElems (l : List JValue) : List String :=
  l.filterMap fun x => match x with | .jstr s => some s | _ => none

/-- A validated persisted session, as `loadSession` returns it
(`processedIds` converted back from an array, `new Set(x || [])`). -/
def jsonToSession (j : JValue) : SyncSession :=
  { id := jStrD j "id" ""
    state := jStrD j "state" ""
    startTime := jNumD j "startTime" 0
    pauseTime := jNumOpt j "pauseTime"
    resumeTime := jNumOpt j "resumeTime"
    totalActions := (jNumD j "totalActions" 0).toNat
    processedActions := (jNumD j "processedActions" 0).toNat
    remainingActions := (jArrD j "remainingActions").map jsonToAction
    processedIds := jStrElems (jArrD j "processedIds")
    errors := jStrElems (jArrD j "errors")
    lastCheckpointTime := jNumD j "lastCheckpointTime" 0
    batchSize := (jNumD j "batchSize" 0).toNat }

/-- The state of the persisted session file: absent, present but unparseable
(`JSON.parse` throws), or parsed to a JSON value. -/
abbrev SessionFile := Option (Except String JValue)

/-- `SyncStateManager.loadSession`: a missing file, a parse error (the
`catch` branch) and a record failing `isValidSession` all yield `null`. -/
def loadSession (file : SessionFile) : Option SyncSession :=
  match file with
  | none => none
  | some (.error _) => none
  | some (.ok j) => if isValidSession j then some (jsonToSession j) else none

/-- The fresh session that `initializeSession` creates when there is nothing
to resume (`generateSessionId()` and `Date.now()` passed explicitly). -/
def freshSession (actions : List DeltaAction) (batchSize : Nat) (now : Int)
    (freshId : String) : SyncSession :=
  { id := freshId
    state := "running"
    startTime := now
    totalActions := actions.length
    processedActions := 0
    remainingActions := actions
    processedIds := []
    errors := []
    lastCheckpointTime := now
    batchSize := batchSize }

/-- `SyncStateManager.initializeSession`: resume a persisted paused session
with work remaining, otherwise create a fresh one. -/
def initializeSession (file : SessionFile) (actions : List DeltaAction)
    (batchSize : Nat) (now : Int) (freshId : String) : SyncSession :=
  match loadSession file with
  | some existingSession =>
    if existingSession.state = "paused" ∧ 0 < existingSession.remainingActions.length then
      { existingSession with
        state := "running"
        resumeTime := some now
        batchSize := batchSize }
    else freshSession actions batchSize now freshId
  | none => freshSession actions batchSize now freshId

/-! ## Batch success policy (`ChromaRunner.executeSyncBatches`) -/

/-- The per-error quota test of `executeSyncBatches`:
`error.includes('Quota exceeded') || error.includes('quota limit')`. -/
def isQuotaError (e : String) : Bool :=
  strIncludes e "Quota exceeded" || strIncludes e "quota limit"

/-- The success decision at the end of `executeSyncBatches`:
`totalActions = session?.totalActions || 1`, `successRate` the exact fraction,
success iff `successRate >= 0.8` or only quota errors occurred and
`successRate > 0`. -/
def syncSuccessDecision (totalProcessed : Nat) (sessionTotalActions : Option Nat)
    (allErrors : List String) : Bool :=
  let totalActions : Nat :=
    match sessionTotalActions with
    | some t => if t = 0 then 1 else t
    | none => 1
  let successRate : ℚ := (totalProcessed : ℚ) / (totalActions : ℚ)
  let hasOnlyQuotaErrors := allErrors.all isQuotaError
  decide ((4 : ℚ) / 5 ≤ successRate) || (hasOnlyQuotaErrors && decide ((0 : ℚ) < successRate))

/-! ## SHA-1 (`crypto.createHash('sha1')`), over UTF-8 bytes, lowercase hex -/

/-- Truncate to 32 bits. -/
def w32 (n : Nat) : Nat :=
  n % 4294967296

/-- Rotate a 32-bit word left by `k` bits. -/
def rotl32 (k x : Nat) : Nat :=
  w32 (x <<< k) ||| (x >>> (32 - k))

/-- UTF-8 encoding of one character. -/
def utf8Char (c : Char) : List Nat :=
  let n := c.toNat
  if n < 128 then [n]
  else if n < 2048 then [192 ||| (n >>> 6), 128 ||| (n &&& 63)]
  else if n < 65536 then
    [224 ||| (n >>> 12), 128 ||| ((n >>> 6) &&& 63), 128 ||| (n &&& 63)]
  else
    [240 ||| (n >>> 18), 128 ||| ((n >>> 12) &&& 63),
      128 ||| ((n >>> 6) &&& 63), 128 ||| (n &&& 63)]

/-- UTF-8 encoding of a string. -/
def utf8Bytes (s : String) : List Nat :=
  (s.data.map utf8Char).flatten

/-- 64-bit big-endian bytes of a number. -/
def be64 (n : Nat) : List Nat :=
  [(n >>> 56) &&& 255, (n >>> 48) &&& 255, (n >>> 40) &&& 255, (n >>> 32) &&& 255,
    (n >>> 24) &&& 255, (n >>> 16) &&& 255, (n >>> 8) &&& 255, n &&& 255]

/-- SHA-1 padding: `0x80`, zeros to 56 mod 64, then the bit length. -/
def shaPad (bytes : List Nat) : List Nat :=
  bytes ++ [128] ++ List.replicate ((119 - bytes.length % 64) % 64) 0 ++
    be64 (bytes.length * 8)

/-- Split into 64-byte blocks. -/
def chunk64 : List Nat → List (List Nat)
  | [] => []
  | b :: bs => ((b :: bs).take 64) :: chunk64 ((b :: bs).drop 64)
termination_by l => l.length
decreasing_by simp; omega

/-- Big-endian 32-bit words of a block. -/
def wordsOf : List Nat → List Nat
  | b0 :: b1 :: b2 :: b3 :: rest =>
    (((b0 * 256 + b1) * 256 + b2) * 256 + b3) :: wordsOf rest
  | _ => []

/-- Extend 16 words to the 80-word message schedule. -/
def extendWords (ws : List Nat) : List Nat :=
  (List.range 64).foldl
    (fun acc _ =>
      let n := acc.length
      acc ++ [rotl32 1 ((acc.getD (n - 3) 0) ^^^ (acc.getD (n - 8) 0) ^^^
        (acc.getD (n - 14) 0) ^^^ (acc.getD (n - 16) 0))])
    ws

/-- The SHA-1 round function. -/
def shaF (t b c d : Nat) : Nat :=
  if t < 20 then (b &&& c) ||| ((4294967295 ^^^ b) &&& d)
  else if t < 40 then b ^^^ c ^^^ d
  else if t < 60 then (b &&& c) ||| (b &&& d) ||| (c &&& d)
  else b ^^^ c ^^^ d

/-- The SHA-1 round constants. -/
def shaK (t : Nat) : Nat :=
  if t < 20 then 1518500249
  else if t < 40 then 1859775393
  else if t < 60 then 2400959708
  else 3395469782

/-- One SHA-1 block compression. -/
def shaCompress (h : Nat × Nat × Nat × Nat × Nat) (block : List Nat) :
    Nat × Nat × Nat × Nat × Nat :=
  let ws := extendWords (wordsOf block)
  let st :=
    (List.range 80).foldl
      (fun (st : Nat × Nat × Nat × Nat × Nat) t =>
        let temp :=
          w32 (rotl32 5 st.1 + shaF t st.2.1 st.2.2.1 st.2.2.2.1 + st.2.2.2.2 +
            shaK t + ws.getD t 0)
        (temp, st.1, rotl32 30 st.2.1, st.2.2.1, st.2.2.2.1))
      h
  (w32 (h.1 + st.1), w32 (h.2.1 + st.2.1), w32 (h.2.2.1 + st.2.2.1),
    w32 (h.2.2.2.1 + st.2.2.2.1), w32 (h.2.2.2.2 + st.2.2.2.2))

/-- SHA-1 state after all blocks. -/
def sha1Words (msg : List Nat) : Nat × Nat × Nat × Nat × Nat :=
  (chunk64 (shaPad msg)).foldl shaCompress
    (1732584193, 4023233417, 2562383102, 271733878, 3285377520)

/-- One lowercase hex digit. -/
def hexDigitChar (n : Nat) : Char :=
  if n < 10 then Char.ofNat (48 + n) else Char.ofNat (87 + n)

/-- Eight lowercase hex digits of a 32-bit word. -/
def toHex32 (n : Nat) : String :=
  ⟨(List.range 8).map fun i => hexDigitChar ((n >>> ((7 - i) * 4)) &&& 15)⟩

/-- Lowercase hex SHA-1 digest of a byte list. -/
def sha1Hex (msg : List Nat) : String :=
  let h := sha1Words msg
  toHex32 h.1 ++ toHex32 h.2.1 ++ toHex32 h.2.2.1 ++ toHex32 h.2.2.2.1 ++
    toHex32 h.2.2.2.2

/-- `DocumentChunker.hashContent`: `createHash('sha1').update(content, 'utf8').digest('hex')`. -/
def hashContent (content : String) : String :=
  sha1Hex (utf8Bytes content)

/-! ## Document chunker (`DocumentChunker`) -/

/-- `ChunkerOptions` merged with `DEFAULT_OPTIONS`
(`maxLen` 1000, `targetLen` 800, `overlap` 200). -/
structure ChunkerOptions where
  maxLen : Nat := 1000
  targetLen : Nat := 800
  overlap : Nat := 200
  deriving Repr, DecidableEq

/-- The fully-defaulted options. -/
def defaultOptions : ChunkerOptions := {}

/-- `SourceDocument`: `mime` is the string union `'markdown' | 'text' | 'pdf'`. -/
structure SourceDocument where
  id : String
  mime : String
  content : String
  updatedAt : Int
  deriving Repr, DecidableEq

/-- `DocumentChunk.meta`. `end` being a Lean keyword, the source's `start`/`end`
offsets are named `start`/`endPos` here. -/
structure ChunkMeta where
  overlapWithPrev : Bool
  overlapWithNext : Bool
  mime : String
  parentPath : Option String := none
  headings : List String
  order : Nat
  updatedAt : Int
  deriving Repr, DecidableEq

/-- `DocumentChunk`: one produced chunk. -/
structure DocumentChunk where
  id : String
  parentId : String
  content : String
  start : Int
  endPos : Int
  hash : String
  meta : ChunkMeta
  deriving Repr, DecidableEq

/-- The internal `TokenChunk` of the chunker (`end` renamed to `endPos`). -/
structure TokenChunk where
  start : Int
  endPos : Int
  type : String
  content : String
  deriving Repr, DecidableEq

/-- The chunk id expression `${doc.id}:${hash.slice(0, 12)}` used by both
`createSingleChunk` and `finalizeChunk`. -/
def chunkIdFor (parentId content : String) : String :=
  parentId ++ ":" ++ (hashContent content).take 12

/-- Index of the last `'\n'` in a character list, if any. -/
def lastIdxNl (l : List Char) : Option Nat :=
  let rec go : List Char → Nat → Option Nat → Option Nat
    | [], _, best => best
    | c :: cs, i, best => go cs (i + 1) (if c = '\n' then some i else best)
  go l 0 none

/-- `content.split(/\n\s*\n/)` with JS leftmost-greedy regex semantics: a
match is a `'\n'`, a maximal whitespace run, backtracked so that the last
consumed character is again `'\n'`. `acc` holds the current piece reversed.
Every step consumes at least one character, so recursion is by a fuel
parameter instantiated with the input length (keeping the definition
structural so that it evaluates in the kernel); the out-of-fuel case is
unreachable under that instantiation. -/
def splitBlankAux : Nat → List Char → List Char → List (List Char)
  | _, [], acc => [acc.reverse]
  | 0, cs, acc => [acc.reverse ++ cs]
  | fuel + 1, c :: rest, acc =>
    if c = '\n' then
      match lastIdxNl (rest.takeWhile isWs) with
      | some m => acc.reverse :: splitBlankAux fuel (rest.drop (m + 1)) []
      | none => splitBlankAux fuel rest (c :: acc)
    else splitBlankAux fuel rest (c :: acc)

/-- `content.split(/\n\s*\n/)`. -/
def splitBlank (cs : List Char) : List (List Char) :=
  splitBlankAux cs.length cs []

/-- The token-emitting loop of `tokenizePlainText`: paragraphs whose trimmed
text is non-empty become tokens; `currentPos` advances by length + 2 per
piece. -/
def tptGo : List (List Char) → Nat → List TokenChunk
  | [], _ => []
  | p :: ps, pos =>
    (if jsTrimL p ≠ [] then
      [⟨(pos : Int), ((pos + p.length : Nat) : Int), "paragraph", ⟨p⟩⟩]
    else []) ++ tptGo ps (pos + p.length + 2)

/-- `DocumentChunker.tokenizePlainText`. -/
def tokenizePlainText (content : String) : List TokenChunk :=
  tptGo (splitBlank content.data) 0

/-- `content.split('\n')`: split on each newline, keeping empty pieces.
`acc` holds the current piece reversed. -/
def splitNlAux : List Char → List Char → List String
  | [], acc => [⟨acc.reverse⟩]
  | c :: cs, acc =>
    if c = '\n' then ⟨acc.reverse⟩ :: splitNlAux cs [] else splitNlAux cs (c :: acc)

/-- `content.split('\n')`. -/
def splitNl (s : String) : List String :=
  splitNlAux s.data []

/-- The tokenizer's heading test `/^#{1,6}\s+/` on a trimmed line: one to six
leading `#` followed by a whitespace character. -/
def isHeadingLine (t : String) : Bool :=
  let n := (t.data.takeWhile fun c => c = '#').length
  decide (1 ≤ n) && decide (n ≤ 6) &&
    (match t.data.drop n with
     | c :: _ => isWs c
     | [] => false)

/-- The list-item test `/^[-*+]\s+/` or `/^\d+\.\s+/` on a trimmed line. -/
def isListStartLine (t : String) : Bool :=
  (match t.data with
   | c :: c2 :: _ => (c = '-' || c = '*' || c = '+') && isWs c2
   | _ => false) ||
  (let ds := (t.data.takeWhile fun c => c.isDigit).length
   decide (1 ≤ ds) &&
     (match t.data.drop ds with
      | '.' :: c :: _ => isWs c
      | _ => false))

/-- The continuation lines collected by `extractCodeBlock` after the opening
fence: every line up to and including the first closing fence. -/
def codeBlockCont : List String → List String
  | [] => []
  | l :: ls => l :: (if strStarts (jsTrimS l) "```" then [] else codeBlockCont ls)

/-- The `i + 1 < lines.length && lines[i + 1]` starts-a-list-item test used
inside `extractListItem`. -/
def headIsListStart : List String → Bool
  | [] => false
  | next :: _ => isListStartLine (jsTrimS next)

/-- The continuation lines collected by `extractListItem` after the first
line: indented or blank lines, stopping after a blank line whose successor
starts a new list item. -/
def listItemCont : List String → List String
  | [] => []
  | l :: ls =>
    if strStarts l "  " || jsTrimS l = "" then
      l ::
        (if jsTrimS l = "" && headIsListStart ls then []
         else listItemCont ls)
    else []

/-- The continuation lines collected by `extractParagraph` after the first
line: non-blank lines that do not start a heading, list item or code fence. -/
def paragraphCont : List String → List String
  | [] => []
  | l :: ls =>
    if jsTrimS l ≠ "" ∧
        ¬(isHeadingLine (jsTrimS l) = true ∨ isListStartLine (jsTrimS l) = true ∨
          strStarts (jsTrimS l) "```" = true) then
      l :: paragraphCont ls
    else []

/-- The main loop of `tokenizeMarkdown` over the lines of the document,
carrying `currentPos`. Each multi-line extractor consumes its line count, at
least one line per step, so recursion is by a fuel parameter instantiated
with the number of lines; the out-of-fuel case is unreachable under that
instantiation. -/
def tmGo : Nat → List String → Nat → List TokenChunk
  | _, [], _ => []
  | 0, _ :: _, _ => []
  | fuel + 1, line :: rest, pos =>
    let lineEnd := pos + line.length + 1
    if strStarts (jsTrimS line) "```" then
      let cb := line :: codeBlockCont rest
      let blockContent := String.intercalate "\n" cb
      ⟨(pos : Int), ((pos + blockContent.length : Nat) : Int), "code_fence", blockContent⟩ ::
        tmGo fuel (rest.drop (cb.length - 1)) (pos + blockContent.length + 1)
    else if isHeadingLine (jsTrimS line) then
      ⟨(pos : Int), ((lineEnd - 1 : Nat) : Int), "heading", line⟩ :: tmGo fuel rest lineEnd
    else if isListStartLine (jsTrimS line) then
      let item := line :: listItemCont rest
      let content := String.intercalate "\n" item
      ⟨(pos : Int), ((pos + content.length : Nat) : Int), "list_item", content⟩ ::
        tmGo fuel (rest.drop (item.length - 1)) (pos + content.length + 1)
    else if jsTrimS line ≠ "" then
      let par := line :: paragraphCont rest
      let content := String.intercalate "\n" par
      ⟨(pos : Int), ((pos + content.length : Nat) : Int), "paragraph", content⟩ ::
        tmGo fuel (rest.drop (par.length - 1)) (pos + content.length + 1)
    else
      ⟨(pos : Int), ((lineEnd - 1 : Nat) : Int), "blank", line⟩ :: tmGo fuel rest lineEnd

/-- `DocumentChunker.tokenizeMarkdown`. -/
def tokenizeMarkdown (content : String) : List TokenChunk :=
  tmGo (splitNl content).length (splitNl content) 0

/-- `DocumentChunker.tokenizeDocument`. -/
def tokenizeDocument (doc : SourceDocument) : List TokenChunk :=
  if doc.mime = "markdown" then tokenizeMarkdown doc.content
  else tokenizePlainText doc.content

/-- Count of leading `'#'` characters. -/
def countLeadingHashes (s : String) : Nat :=
  (s.data.takeWhile fun c => c = '#').length

/-- The breadcrumbs regex `/^(#{1,6})\s+(.+)$/` applied to one line, with JS
backtracking semantics: it matches when the line has one to six leading `#`,
the next character is whitespace, and at least one character follows the
whitespace run (the greedy `\s+` gives one back when it would exhaust the
line). Returns the heading level and `match[2].trim()`. -/
def headingMatch (line : String) : Option (Nat × String) :=
  let n := countLeadingHashes line
  let rest := line.data.drop n
  if 1 ≤ n ∧ n ≤ 6 ∧ rest.head?.elim false isWs = true ∧ 2 ≤ rest.length then
    let w := (rest.takeWhile isWs).length
    some (n, jsTrimS ⟨rest.drop (min w (rest.length - 1))⟩)
  else none

/-- The level the breadcrumbs loop reads back off a stored heading string,
`h.match(/^#{1,6}/)?.[0].length || 0`. -/
def lastHeadingLevel (s : String) : Nat :=
  let n := countLeadingHashes s
  if n = 0 then 0 else min n 6

/-- The pop loop of `extractHeadings`: drop trailing retained headings of
level at or above the incoming one. -/
def popHeads : List String → Nat → List String
  | [], _ => []
  | h :: t, level =>
    if lastHeadingLevel ((h :: t).getLastD "") < level then h :: t
    else popHeads (h :: t).dropLast level
termination_by hs _ => hs.length
decreasing_by all_goals simp [List.length_dropLast]

/-- The line loop of `extractHeadings`. -/
def ehGo : List String → List String → List String
  | [], acc => acc
  | line :: rest, acc =>
    match headingMatch line with
    | some nt =>
      ehGo rest (popHeads acc nt.1 ++ [⟨List.replicate nt.1 '#'⟩ ++ " " ++ nt.2])
    | none => ehGo rest acc

/-- `DocumentChunker.extractHeadings`: heading breadcrumbs over
`content.substring(0, position)`. -/
def extractHeadings (content : String) (position : Int) : List String :=
  ehGo (splitNl (String.mk (content.data.take position.toNat))) []

/-- The match loop of `findSentenceBoundary` over `/[.!?]\s+/g`: `i` is the
current index, `lm` the end position of the last match (0 when none yet);
after a match the scan resumes at its end. Each step consumes at least one
character, so recursion is by a fuel parameter instantiated with the input
length; the out-of-fuel case is unreachable under that instantiation. -/
def fsbGo : Nat → List Char → Nat → Nat → Nat
  | _, [], _, lm => lm
  | 0, _ :: _, _, lm => lm
  | fuel + 1, c :: cs, i, lm =>
    if (c = '.' || c = '!' || c = '?') &&
        (match cs.head? with | some c2 => isWs c2 | none => false) then
      let w := (cs.takeWhile isWs).length
      fsbGo fuel (cs.drop w) (i + 1 + w) (i + 1 + w)
    else fsbGo fuel cs (i + 1) lm

/-- `DocumentChunker.findSentenceBoundary`: end of the last sentence
terminator followed by whitespace, or (`lastMatch || content.length`) the
whole length when no such boundary exists. -/
def findSentenceBoundary (content : String) : Nat :=
  let lm := fsbGo content.data.length content.data 0 0
  if lm = 0 then content.length else lm

/-- `s.slice(-n)` for a `Nat` argument: the last `n` characters
(`slice(-0)` is `slice(0)`, the whole string). -/
def jsSliceFromNeg (s : String) (n : Nat) : String :=
  if n = 0 then s else ⟨s.data.drop (s.data.length - n)⟩

/-- The result record of `prepareOverlap`. -/
structure OverlapResult where
  overlapContent : String
  nextStart : Int
  nextBuffer : List TokenChunk
  nextBufferLen : Nat
  deriving Repr, DecidableEq

/-- The token-collecting loop of `prepareOverlap`, walking the buffer from
its end (the input here is the reversed buffer) while overlap budget remains.
A token that fits is taken whole; at the first token that does not fit, a
heading or code fence is taken whole, a paragraph is cut to its suffix of
budget length trimmed at `findSentenceBoundary` (dropped entirely when that
returns 0), and the loop stops. -/
def ovlLoop : List TokenChunk → Nat → List TokenChunk
  | [], _ => []
  | t :: ts, remainingOverlap =>
    if remainingOverlap = 0 then []
    else if t.content.length ≤ remainingOverlap then
      ovlLoop ts (remainingOverlap - t.content.length) ++ [t]
    else if t.type = "code_fence" || t.type = "heading" then [t]
    else
      let partialContent := jsSliceFromNeg t.content remainingOverlap
      let sentenceBoundary := findSentenceBoundary partialContent
      if 0 < sentenceBoundary then
        [{ t with content := jsSliceFromNeg t.content sentenceBoundary }]
      else []

/-- `DocumentChunker.prepareOverlap`. -/
def prepareOverlap (opts : ChunkerOptions) (buffer : List TokenChunk) :
    OverlapResult :=
  if h : buffer = [] then ⟨"", 0, [], 0⟩
  else
    let overlapTokens := ovlLoop buffer.reverse opts.overlap
    let overlapContent := String.intercalate "\n" (overlapTokens.map (·.content))
    let lastToken := buffer.getLast h
    ⟨overlapContent, lastToken.endPos - overlapContent.length, overlapTokens,
      overlapContent.length⟩

/-- `DocumentChunker.finalizeChunk`: `null` on an empty buffer, else the
chunk whose content is the pending overlap (followed by `'\n'` when
non-empty) and the buffered token contents joined by `'\n'`.
`overlapWithNext` is always set `true` here. -/
def finalizeChunk (doc : SourceDocument) (buffer : List TokenChunk)
    (start : Int) (overlapContent : String) : Option DocumentChunk :=
  if h : buffer = [] then none
  else
    let chunkContent :=
      (if overlapContent ≠ "" then overlapContent ++ "\n" else "") ++
        String.intercalate "\n" (buffer.map (·.content))
    let hash := hashContent chunkContent
    some
      { id := doc.id ++ ":" ++ hash.take 12
        parentId := doc.id
        content := chunkContent
        start := start
        endPos := (buffer.getLast h).endPos
        hash := hash
        meta :=
          { overlapWithPrev := decide (0 < overlapContent.length)
            overlapWithNext := true
            mime := doc.mime
            headings := extractHeadings doc.content start
            order := 0
            updatedAt := doc.updatedAt } }

/-- `DocumentChunker.createSingleChunk` for documents within `maxLen`. -/
def createSingleChunk (doc : SourceDocument) : DocumentChunk :=
  let hash := hashContent doc.content
  { id := doc.id ++ ":" ++ hash.take 12
    parentId := doc.id
    content := doc.content
    start := 0
    endPos := (doc.content.length : Int)
    hash := hash
    meta :=
      { overlapWithPrev := false
        overlapWithNext := false
        mime := doc.mime
        headings := extractHeadings doc.content 0
        order := 0
        updatedAt := doc.updatedAt } }

/-- The token loop of `DocumentChunker.processTokens`, with the mutable state
(buffer, its length, pending overlap text, next chunk start) passed along.
Before adding a token that would push the buffer past `maxLen`, a non-empty
buffer is flushed; after adding, a buffer at or past `targetLen` is flushed
eagerly; the final non-empty buffer is flushed at the end. -/
def ptGo (opts : ChunkerOptions) (doc : SourceDocument) :
    List TokenChunk → List TokenChunk → Nat → String → Int → List DocumentChunk
  | [], buffer, _, overlapBuffer, chunkStart =>
    (finalizeChunk doc buffer chunkStart overlapBuffer).toList
  | token :: ts, buffer, bufferLen, overlapBuffer, chunkStart =>
    match
      (if opts.maxLen < bufferLen + token.content.length ∧ buffer ≠ [] then
        let r := prepareOverlap opts buffer
        ((finalizeChunk doc buffer chunkStart overlapBuffer).toList,
          r.nextBuffer, r.nextBufferLen, r.overlapContent, r.nextStart)
      else ([], buffer, bufferLen, overlapBuffer, chunkStart)) with
    | (emitted, buffer0, bufferLen0, overlapBuffer0, chunkStart0) =>
      let buffer1 := buffer0 ++ [token]
      let bufferLen1 := bufferLen0 + token.content.length
      if opts.targetLen ≤ bufferLen1 then
        let r := prepareOverlap opts buffer1
        emitted ++ (finalizeChunk doc buffer1 chunkStart0 overlapBuffer0).toList ++
          ptGo opts doc ts r.nextBuffer r.nextBufferLen r.overlapContent r.nextStart
      else emitted ++ ptGo opts doc ts buffer1 bufferLen1 overlapBuffer0 chunkStart0

/-- `DocumentChunker.processTokens`. -/
def processTokens (opts : ChunkerOptions) (doc : SourceDocument)
    (tokens : List TokenChunk) : List DocumentChunk :=
  ptGo opts doc tokens [] 0 "" 0

/-- `DocumentChunker.chunkDocument`: a single whole-document chunk when the
content is within `maxLen`, otherwise the processed token chunks with
`meta.order` assigned consecutively from 0. -/
def chunkDocument (opts : ChunkerOptions) (doc : SourceDocument) :
    List DocumentChunk :=
  if doc.content.length ≤ opts.maxLen then [createSingleChunk doc]
  else
    (processTokens opts doc (tokenizeDocument doc)).enum.map fun ic =>
      { ic.2 with meta := { ic.2.meta with order := ic.1 } }

/-- The sequence of chunk ids `chunkDocument` yields. -/
def chunkIds (opts : ChunkerOptions) (doc : SourceDocument) : List String :=
  (chunkDocument opts doc).map (·.id)

/-- `DocumentChunker.needsChunking`. -/
def needsChunking (content : String) (opts : ChunkerOptions) : Bool :=
  decide (opts.maxLen < content.length)

/-- A live session fixture with the given counts, used in concrete
instances. -/
def exSession (processed total batchSize : Nat) : SyncSession :=
  { id := "s"
    state := "running"
    startTime := 0
    totalActions := total
    processedActions := processed
    remainingActions := []
    processedIds := []
    errors := []
    lastCheckpointTime := 0
    batchSize := batchSize }

/-! ## Theorems: document ids (C1) -/

/-- Both replacement passes fix a list made only of identifier characters. -/
theorem map_sanitize_of_idChars (l : List Char) (h : ∀ c ∈ l, isIdChar c = true) :
    ((l.map fun c => if c = '/' || c = '\\' then '_' else c).map
      fun c => if isIdChar c then c else '_') = l := by
  induction l with
  | nil => rfl
  | cons c cs ih =>
    have hc : isIdChar c = true := h c (List.mem_cons_self _ _)
    have h1 : ¬((c = '/' || c = '\\') = true) := by
      simp only [Bool.or_eq_true, decide_eq_true_eq]
      rintro (rfl | rfl) <;> exact absurd hc (by decide)
    simp only [List.map_cons]
    rw [if_neg h1, if_pos hc]
    exact congrArg (c :: ·) (ih fun x hx => h x (List.mem_cons_of_mem _ hx))

/-- On a path made only of identifier characters, `getDocumentId` is the
identity. -/
theorem getDocumentId_of_idChars (p : String) (h : p.data.all isIdChar = true) :
    getDocumentId p = p := by
  rcases p with ⟨l⟩
  exact congrArg String.mk
    (map_sanitize_of_idChars l fun c hc => (List.all_eq_true.mp h) c hc)

/-- C1, corrected: the document id is a deterministic pure function of the
path, and on paths consisting only of identifier characters `[a-zA-Z0-9_.-]`
it is the identity and hence injective; distinct paths that differ only in
replaced characters can share an id (see the counterexample). -/
theorem c1_theorem :
    (∀ p : String, p.data.all isIdChar = true → getDocumentId p = p) ∧
    (∀ p1 p2 : String, p1.data.all isIdChar = true → p2.data.all isIdChar = true →
      getDocumentId p1 = getDocumentId p2 → p1 = p2) := by
  refine ⟨getDocumentId_of_idChars, fun p1 p2 h1 h2 heq => ?_⟩
  rwa [getDocumentId_of_idChars p1 h1, getDocumentId_of_idChars p2 h2] at heq

/-- C1 witness: a concrete identifier-only path is preserved, via
`c1_theorem`. -/
theorem c1_witness :
    ("notes.md" : String).data.all isIdChar = true ∧
      getDocumentId "notes.md" = "notes.md" :=
  ⟨by decide, c1_theorem.1 "notes.md" (by decide)⟩

/-- C1 counterexample: the distinct paths `"a/b"` and `"a_b"` map to the same
document id, refuting `p1 ≠ p2 → getDocumentId p1 ≠ getDocumentId p2`. -/
theorem c1_counterexample :
    getDocumentId "a/b" = getDocumentId "a_b" ∧ ("a/b" : String) ≠ "a_b" := by
  constructor <;> decide

/-! ## Theorems: verification freshness (C7) -/

/-- `needsVerification` in milliseconds: true exactly when the record is
absent or at least 86400000 ms have elapsed. -/
theorem needsVerification_iff (now : Int) (s : FileState) :
    needsVerification now s = true ↔
      (s.chromaState = none ∨
        ∃ cs, s.chromaState = some cs ∧ 86400000 ≤ now - cs.lastVerification) := by
  rcases h : s.chromaState with _ | cs
  · simp [needsVerification, h]
  · simp only [needsVerification, h, decide_eq_true_eq, reduceCtorEq, false_or,
      Option.some.injEq]
    rw [le_div_iff₀ (by norm_num : (0 : ℚ) < 1000 * 60 * 60)]
    norm_num
    norm_cast

/-- C7, corrected: `needsVerification` is true exactly when the verification
record is absent or the elapsed time is at least (not strictly more than)
24 hours = 86400000 ms. -/
theorem c7_theorem (now : Int) (s : FileState) :
    needsVerification now s = true ↔
      (s.chromaState = none ∨
        ∃ cs, s.chromaState = some cs ∧ 86400000 ≤ now - cs.lastVerification) :=
  needsVerification_iff now s

/-- C7 counterexample: at an elapsed time of exactly 24 hours the code
returns `true`, while the claim (elapsed time must *exceed* the 24-hour
threshold, false otherwise) demands `false`. -/
theorem c7_counterexample :
    needsVerification 86400000
        ⟨[], 0, 1, none, some ⟨0, .verified, none⟩⟩ = true ∧
      ¬((⟨[], 0, 1, none, some ⟨0, .verified, none⟩⟩ : FileState).chromaState = none ∨
        ∃ cs, (⟨[], 0, 1, none, some ⟨0, .verified, none⟩⟩ : FileState).chromaState = some cs ∧
          86400000 < 86400000 - cs.lastVerification) := by
  constructor
  · exact (needsVerification_iff 86400000 _).mpr (Or.inr ⟨⟨0, .verified, none⟩, rfl, by norm_num⟩)
  · rintro (h | ⟨cs, hcs, hlt⟩)
    · simp at h
    · simp only [Option.some.injEq] at hcs
      cases hcs
      simp at hlt

/-! ## Theorems: progress derivation (C5) -/

/-- Floor of a rational quotient of naturals is natural division. -/
theorem floor_natCast_div (a b : ℕ) :
    ⌊(a : ℚ) / (b : ℚ)⌋ = ((a / b : ℕ) : ℤ) := by
  have h := Rat.floor_intCast_div_natCast (a : ℤ) b
  have h2 : (((a : ℤ) : ℚ)) = (a : ℚ) := by push_cast; ring
  rw [h2] at h
  rw [h]
  exact_mod_cast rfl

/-- `Math.ceil` of a rational quotient of naturals as natural arithmetic. -/
theorem jsCeil_natCast_div (p b : ℕ) (hb : b ≠ 0) :
    jsCeil ((p : ℚ) / (b : ℚ)) = (((p + b - 1) / b : ℕ) : ℤ) := by
  have hb' : 0 < b := Nat.pos_of_ne_zero hb
  have hbq : (0 : ℚ) < (b : ℚ) := by exact_mod_cast hb'
  have hdm := Nat.div_add_mod (p + b - 1) b
  have hmlt : (p + b - 1) % b < b := Nat.mod_lt _ hb'
  set q := (p + b - 1) / b with hq
  have h1 : p ≤ b * q := by omega
  have h2 : b * q < p + b := by omega
  have h1q : (p : ℚ) ≤ (b : ℚ) * (q : ℚ) := by exact_mod_cast h1
  have h2q : (b : ℚ) * (q : ℚ) < (p : ℚ) + (b : ℚ) := by exact_mod_cast h2
  rw [jsCeil, Int.ceil_eq_iff]
  constructor
  · rw [lt_div_iff₀ hbq]
    push_cast
    nlinarith
  · rw [div_le_iff₀ hbq]
    push_cast
    nlinarith

/-- `Math.round((p / t) * 100)` as natural arithmetic. -/
theorem jsRound_percentage (p t : ℕ) (ht : t ≠ 0) :
    jsRound ((p : ℚ) / (t : ℚ) * 100) = (((200 * p + t) / (2 * t) : ℕ) : ℤ) := by
  have htq : ((t : ℚ)) ≠ 0 := by exact_mod_cast ht
  have key : (p : ℚ) / (t : ℚ) * 100 + 1 / 2 =
      ((200 * p + t : ℕ) : ℚ) / ((2 * t : ℕ) : ℚ) := by
    push_cast
    field_simp
    ring
  rw [jsRound, key, floor_natCast_div]

/-- C5, corrected: on a live session with a positive batch size,
`getProgress` derives processed, total, `remaining = total - processed`,
`percentage = round(processed/total*100)` (0 when `total = 0`),
`currentBatch = max 1 (ceil(processed/batchSize))` and
`totalBatches = max 1 (ceil(total/batchSize))` (each clamped to at least 1,
unlike the claim's bare ceilings), `elapsedTime = (pauseTime, when set and
non-zero, else now) - startTime`, and `estimatedTimeRemaining =
round(elapsedTime·remaining/processed)` exactly when `processed > 0` and the
state is `running`, absent otherwise. The ceilings and the rounding are
written in natural-number arithmetic. -/
theorem c5_theorem (now : Int) (s : SyncSession) (hb : s.batchSize ≠ 0) :
    (getProgressOf now s).processed = s.processedActions ∧
    (getProgressOf now s).total = s.totalActions ∧
    (getProgressOf now s).remaining =
      (s.totalActions : Int) - (s.processedActions : Int) ∧
    (s.totalActions ≠ 0 → (getProgressOf now s).percentage =
      (((200 * s.processedActions + s.totalActions) / (2 * s.totalActions) : ℕ) : ℤ)) ∧
    (s.totalActions = 0 → (getProgressOf now s).percentage = 0) ∧
    (getProgressOf now s).currentBatch =
      max 1 (((s.processedActions + s.batchSize - 1) / s.batchSize : ℕ) : ℤ) ∧
    (getProgressOf now s).totalBatches =
      max 1 (((s.totalActions + s.batchSize - 1) / s.batchSize : ℕ) : ℤ) ∧
    (getProgressOf now s).state = s.state ∧
    (getProgressOf now s).elapsedTime =
      (match s.pauseTime with
        | some t => if t ≠ 0 then t else now
        | none => now) - s.startTime ∧
    (0 < s.processedActions ∧ s.state = "running" →
      (getProgressOf now s).estimatedTimeRemaining =
        some (jsRound (((getProgressOf now s).elapsedTime : ℚ) *
          ((getProgressOf now s).remaining : ℚ) / (s.processedActions : ℚ)))) ∧
    (¬(0 < s.processedActions ∧ s.state = "running") →
      (getProgressOf now s).estimatedTimeRemaining = none) := by
  refine ⟨rfl, rfl, rfl, ?_, ?_, ?_, ?_, rfl, rfl, ?_, ?_⟩
  · intro ht
    simp only [getProgressOf, if_pos (Nat.pos_of_ne_zero ht)]
    exact jsRound_percentage _ _ ht
  · intro ht
    simp only [getProgressOf, ht, if_neg (lt_irrefl 0)]
  · simp only [getProgressOf]
    rw [jsCeil_natCast_div _ _ hb]
  · simp only [getProgressOf]
    rw [jsCeil_natCast_div _ _ hb]
  · intro hrun
    simp only [getProgressOf, if_pos hrun]
    rw [div_mul_eq_mul_div]
  · intro hrun
    simp only [getProgressOf, if_neg hrun]

/-- C5 witness: the claim's own example, 20 actions with batch size 5 after
2 completed batches of 5, via `c5_theorem`. -/
theorem c5_witness :
    (getProgressOf 1000 (exSession 10 20 5)).processed = 10 ∧
    (getProgressOf 1000 (exSession 10 20 5)).percentage = 50 ∧
    (getProgressOf 1000 (exSession 10 20 5)).remaining = 10 ∧
    (getProgressOf 1000 (exSession 10 20 5)).currentBatch = 2 ∧
    (getProgressOf 1000 (exSession 10 20 5)).totalBatches = 4 := by
  obtain ⟨h1, -, h3, h4, -, h6, h7, -⟩ := c5_theorem 1000 (exSession 10 20 5) (by decide)
  refine ⟨h1, ?_, ?_, ?_, ?_⟩
  · rw [h4 (by decide)]; decide
  · rw [h3]; decide
  · rw [h6]; decide
  · rw [h7]; decide

/-- C5 counterexample: with `processedActions = 0` (a case the claim covers
explicitly) the code reports `currentBatch = 1` while the claim's formula
`ceil(processed/batchSize)` is 0. -/
theorem c5_counterexample :
    (getProgressOf 1000 (exSession 0 20 5)).currentBatch = 1 ∧
      jsCeil (((exSession 0 20 5).processedActions : ℚ) /
        ((exSession 0 20 5).batchSize : ℚ)) = 0 := by
  constructor
  · simp only [getProgressOf]
    rw [jsCeil_natCast_div _ _ (by decide)]
    decide
  · rw [jsCeil_natCast_div _ _ (by decide)]
    decide

/-! ## Theorems: retry bookkeeping (C2) -/

theorem mem_jsSetDedupAux (a : String) (l seen : List String) :
    a ∈ jsSetDedupAux seen l ↔ a ∈ l ∧ a ∉ seen := by
  induction l generalizing seen with
  | nil => simp [jsSetDedupAux]
  | cons x xs ih =>
    by_cases hx : x ∈ seen
    · simp only [jsSetDedupAux, if_pos hx, ih, List.mem_cons]
      constructor
      · rintro ⟨hm, hs⟩; exact ⟨Or.inr hm, hs⟩
      · rintro ⟨hm | hm, hs⟩
        · exact absurd (hm ▸ hx) hs
        · exact ⟨hm, hs⟩
    · simp only [jsSetDedupAux, if_neg hx, List.mem_cons, ih, List.mem_cons]
      constructor
      · rintro (rfl | ⟨hm, hs⟩)
        · exact ⟨Or.inl rfl, hx⟩
        · exact ⟨Or.inr hm, fun hc => hs (Or.inr hc)⟩
      · rintro ⟨rfl | hm, hs⟩
        · exact Or.inl rfl
        · by_cases hax : a = x
          · exact Or.inl hax
          · exact Or.inr ⟨hm, fun hc => (hc.elim hax hs : False)⟩

theorem nodup_jsSetDedupAux (l seen : List String) :
    (jsSetDedupAux seen l).Nodup := by
  induction l generalizing seen with
  | nil => simp [jsSetDedupAux]
  | cons x xs ih =>
    by_cases hx : x ∈ seen
    · simpa [jsSetDedupAux, if_pos hx] using ih seen
    · simp only [jsSetDedupAux, if_neg hx, List.nodup_cons]
      refine ⟨fun hc => ?_, ih (x :: seen)⟩
      exact ((mem_jsSetDedupAux x xs (x :: seen)).mp hc).2 (List.mem_cons_self _ _)

theorem mem_jsSetDedup (a : String) (l : List String) :
    a ∈ jsSetDedup l ↔ a ∈ l := by
  simp [jsSetDedup, mem_jsSetDedupAux]

theorem nodup_jsSetDedup (l : List String) : (jsSetDedup l).Nodup :=
  nodup_jsSetDedupAux l []

theorem rcGet_map_incr_self (rc : List (String × Nat)) (f : String) (v : Nat)
    (h : rcGet rc f = some v) :
    rcGet (rc.map fun e => if e.1 = f then (e.1, e.2 + 1) else e) f = some (v + 1) := by
  induction rc with
  | nil => simp [rcGet] at h
  | cons e rest ih =>
    by_cases hk : e.1 = f
    · rw [rcGet, if_pos hk] at h
      cases h
      simp [List.map_cons, if_pos hk, rcGet, hk]
    · rw [rcGet, if_neg hk] at h
      simp only [List.map_cons, if_neg hk, rcGet]
      exact ih h

theorem rcGet_map_incr_other (rc : List (String × Nat)) (f p : String)
    (hne : p ≠ f) :
    rcGet (rc.map fun e => if e.1 = f then (e.1, e.2 + 1) else e) p = rcGet rc p := by
  induction rc with
  | nil => simp [rcGet]
  | cons e rest ih =>
    by_cases hk : e.1 = f
    · simp only [List.map_cons, if_pos hk, rcGet]
      rw [if_neg (hk ▸ (Ne.symm hne) : ¬e.1 = p), if_neg (hk ▸ (Ne.symm hne) : ¬e.1 = p)]
      exact ih
    · simp only [List.map_cons, if_neg hk, rcGet]
      by_cases hp : e.1 = p
      · rw [if_pos hp, if_pos hp]
      · rw [if_neg hp, if_neg hp]; exact ih

theorem rcGet_append_single (rc : List (String × Nat)) (f : String) (v : Nat)
    (h : rcGet rc f = none) :
    rcGet (rc ++ [(f, v)]) f = some v := by
  induction rc with
  | nil => simp [rcGet]
  | cons e rest ih =>
    by_cases hk : e.1 = f
    · rw [rcGet, if_pos hk] at h; cases h
    · rw [rcGet, if_neg hk] at h
      rw [List.cons_append, rcGet, if_neg hk]
      exact ih h

theorem rcGet_append_other (rc : List (String × Nat)) (f p : String) (v : Nat)
    (hne : p ≠ f) :
    rcGet (rc ++ [(f, v)]) p = rcGet rc p := by
  induction rc with
  | nil => simp [rcGet, Ne.symm hne]
  | cons e rest ih =>
    rw [List.cons_append, rcGet, rcGet]
    by_cases hp : e.1 = p
    · rw [if_pos hp, if_pos hp]
    · rw [if_neg hp, if_neg hp]; exact ih

theorem rcGet_rcIncr_self (rc : List (String × Nat)) (f : String) :
    rcGet (rcIncr rc f) f = some ((rcGet rc f).getD 0 + 1) := by
  rcases h : rcGet rc f with _ | v
  · rw [rcIncr, if_neg (by simp [h])]
    simpa using rcGet_append_single rc f 1 h
  · rw [rcIncr, if_pos (by simp [h])]
    simpa using rcGet_map_incr_self rc f v h

theorem rcGet_rcIncr_other (rc : List (String × Nat)) (f p : String) (hne : p ≠ f) :
    rcGet (rcIncr rc f) p = rcGet rc p := by
  rw [rcIncr]
  by_cases h : (rcGet rc f).isSome
  · rw [if_pos h]; exact rcGet_map_incr_other rc f p hne
  · rw [if_neg h]; exact rcGet_append_other rc f p 1 hne

theorem rcGet_foldl_not_mem (l : List String) (rc : List (String × Nat)) (p : String)
    (h : p ∉ l) : rcGet (l.foldl rcIncr rc) p = rcGet rc p := by
  induction l generalizing rc with
  | nil => rfl
  | cons x xs ih =>
    rw [List.foldl_cons]
    rw [ih _ (fun hc => h (List.mem_cons_of_mem _ hc))]
    exact rcGet_rcIncr_other rc x p (fun hc => h (hc ▸ List.mem_cons_self _ _))

theorem rcGet_foldl_mem (l : List String) (rc : List (String × Nat)) (p : String)
    (hmem : p ∈ l) (hnd : l.Nodup) :
    rcGet (l.foldl rcIncr rc) p = some ((rcGet rc p).getD 0 + 1) := by
  induction l generalizing rc with
  | nil => cases hmem
  | cons x xs ih =>
    rw [List.foldl_cons]
    rcases List.mem_cons.mp hmem with rfl | hmem'
    · rw [rcGet_foldl_not_mem xs _ p (List.nodup_cons.mp hnd).1]
      exact rcGet_rcIncr_self rc p
    · rw [ih _ hmem' (List.nodup_cons.mp hnd).2]
      have hne : p ≠ x := fun hc => (List.nodup_cons.mp hnd).1 (hc ▸ hmem')
      rw [rcGet_rcIncr_other rc x p hne]


theorem rcGet_eq_none_of_forall (rc : List (String × Nat)) (k : String)
    (h : ∀ e ∈ rc, e.1 ≠ k) : rcGet rc k = none := by
  induction rc with
  | nil => rfl
  | cons e rest ih =>
    rw [rcGet, if_neg (h e (List.mem_cons_self _ _))]
    exact ih fun x hx => h x (List.mem_cons_of_mem _ hx)

/-- C2, corrected: with a duplicate-free `paths` list, `markFilesFailed`
unions the paths into `failedFiles` with set semantics, stamps
`lastFailure`, and increments each named path's retry count by exactly 1
per call (1 then 2 across two calls); with a duplicated list the count rises
by the number of occurrences (see the counterexample). `markFilesSucceeded`
removes each named path from `failedFiles`, deletes its retry-count entry,
collapses to an absent record exactly when every failed file succeeded, and
never leaves an empty record. -/
theorem c2_theorem :
    (∀ (now : Int) (s : FileState) (paths : List String), paths.Nodup →
      ∃ ps, (markFilesFailed now s paths).partialSync = some ps ∧
        ps.lastFailure = now ∧
        ps.failedFiles.Nodup ∧
        (∀ p, p ∈ ps.failedFiles ↔ (p ∈ prevFailedFiles s ∨ p ∈ paths)) ∧
        (∀ p ∈ paths,
          rcGet ps.retryCount p = some ((rcGet (prevRetryCount s) p).getD 0 + 1))) ∧
    (∀ (n1 n2 : Int) (s : FileState) (p : String), s.partialSync = none →
      ∃ ps2, (markFilesFailed n2 (markFilesFailed n1 s [p]) [p]).partialSync = some ps2 ∧
        rcGet ps2.retryCount p = some 2) ∧
    (∀ (s : FileState) (succ : List String) (p : String), p ∈ succ →
      (markFilesSucceeded s succ).partialSync.elim True
        (fun ps => p ∉ ps.failedFiles ∧ rcGet ps.retryCount p = none)) ∧
    (∀ (s : FileState) (succ : List String) (ps : PartialSyncRec),
      s.partialSync = some ps →
      ((markFilesSucceeded s succ).partialSync = none ↔
        ∀ f ∈ ps.failedFiles, f ∈ succ)) ∧
    (∀ (s : FileState) (succ : List String) (ps2 : PartialSyncRec),
      (markFilesSucceeded s succ).partialSync = some ps2 → ps2.failedFiles ≠ []) := by
  have partA : ∀ (now : Int) (s : FileState) (paths : List String), paths.Nodup →
      ∃ ps, (markFilesFailed now s paths).partialSync = some ps ∧
        ps.lastFailure = now ∧
        ps.failedFiles.Nodup ∧
        (∀ p, p ∈ ps.failedFiles ↔ (p ∈ prevFailedFiles s ∨ p ∈ paths)) ∧
        (∀ p ∈ paths,
          rcGet ps.retryCount p = some ((rcGet (prevRetryCount s) p).getD 0 + 1)) := by
    intro now s paths hnd
    refine ⟨_, rfl, rfl, nodup_jsSetDedup _, fun p => ?_, fun p hp => ?_⟩
    · rcases hps : s.partialSync with _ | ps0 <;>
        simp [mem_jsSetDedup, hps, prevFailedFiles]
    · rcases hps : s.partialSync with _ | ps0 <;>
        simp only [hps, Option.getD_none, Option.getD_some, prevRetryCount, Option.elim] <;>
        exact rcGet_foldl_mem paths _ p hp hnd
  refine ⟨partA, ?_, ?_, ?_, ?_⟩
  · intro n1 n2 s p hnone
    obtain ⟨ps1, hps1, -, -, -, hrc1⟩ := partA n1 s [p] (List.nodup_singleton p)
    obtain ⟨ps2, hps2, -, -, -, hrc2⟩ :=
      partA n2 (markFilesFailed n1 s [p]) [p] (List.nodup_singleton p)
    refine ⟨ps2, hps2, ?_⟩
    rw [hrc2 p (List.mem_singleton_self p)]
    rw [show prevRetryCount (markFilesFailed n1 s [p]) = ps1.retryCount by
      simp [prevRetryCount, hps1]]
    rw [hrc1 p (List.mem_singleton_self p)]
    rw [show prevRetryCount s = [] by simp [prevRetryCount, hnone]]
    rfl
  · intro s succ p hp
    rcases hps : s.partialSync with _ | ps0
    · simp [markFilesSucceeded, hps]
    · simp only [markFilesSucceeded, hps]
      by_cases hrem :
          0 < (ps0.failedFiles.filter fun f => decide (f ∉ succ)).length
      · rw [if_pos hrem]
        refine ⟨fun hc => ?_, ?_⟩
        · have := (List.mem_filter.mp hc).2
          simp at this
          exact this hp
        · refine rcGet_eq_none_of_forall _ _ fun e he => ?_
          have := (List.mem_filter.mp he).2
          simp at this
          exact fun hc => this (hc ▸ hp)
      · rw [if_neg hrem]
        exact trivial
  · intro s succ ps hps
    simp only [markFilesSucceeded, hps]
    by_cases hrem : 0 < (ps.failedFiles.filter fun f => decide (f ∉ succ)).length
    · rw [if_pos hrem]
      simp only [reduceCtorEq, false_iff]
      intro hall
      have hnil : ps.failedFiles.filter (fun f => decide (f ∉ succ)) = [] := by
        rw [List.filter_eq_nil_iff]
        intro a ha
        simpa using hall a ha
      rw [hnil] at hrem
      exact absurd hrem (by simp)
    · rw [if_neg hrem]
      simp only [true_iff]
      intro f hf
      by_contra hc
      have hmem : f ∈ ps.failedFiles.filter fun f => decide (f ∉ succ) :=
        List.mem_filter.mpr ⟨hf, by simpa using hc⟩
      exact hrem (List.length_pos_of_mem hmem)
  · intro s succ ps2 hps2
    rcases hps : s.partialSync with _ | ps0
    · simp only [markFilesSucceeded, hps] at hps2
      exact Option.noConfusion hps2
    · simp only [markFilesSucceeded, hps] at hps2
      by_cases hrem : 0 < (ps0.failedFiles.filter fun f => decide (f ∉ succ)).length
      · rw [if_pos hrem] at hps2
        cases hps2
        exact List.length_pos.mp hrem
      · rw [if_neg hrem] at hps2
        exact Option.noConfusion hps2

/-- C2 witness: concrete instances of each part of `c2_theorem`: a first
call stamps time and count 1, a repeated single-path failure reaches count
2, and succeeding the last failed path clears the record to absence. -/
theorem c2_witness :
    (∃ ps, (markFilesFailed 7 ⟨[], 0, 1, none, none⟩ ["a", "b"]).partialSync = some ps ∧
      ps.lastFailure = 7 ∧ rcGet ps.retryCount "a" = some 1) ∧
    (∃ ps2, (markFilesFailed 1 (markFilesFailed 0 ⟨[], 0, 1, none, none⟩ ["x"])
        ["x"]).partialSync = some ps2 ∧ rcGet ps2.retryCount "x" = some 2) ∧
    (markFilesSucceeded ⟨[], 0, 1, some ⟨["a"], [("a", 1)], 0⟩, none⟩ ["a"]).partialSync
      = none := by
  refine ⟨?_, c2_theorem.2.1 0 1 _ "x" rfl, ?_⟩
  · obtain ⟨ps, h1, h2, -, -, h5⟩ :=
      c2_theorem.1 7 ⟨[], 0, 1, none, none⟩ ["a", "b"] (by decide)
    refine ⟨ps, h1, h2, ?_⟩
    rw [h5 "a" (by decide)]
    rfl
  · rw [c2_theorem.2.2.2.1 _ ["a"] ⟨["a"], [("a", 1)], 0⟩ rfl]
    decide

/-- C2 counterexample: one call with the path list `["a", "a"]` takes the
retry count of `"a"` from 0 to 2, not to 1 as the claim's
"exactly 1 per call" requires. -/
theorem c2_counterexample :
    ∃ ps, (markFilesFailed 0 ⟨[], 0, 1, none, none⟩ ["a", "a"]).partialSync = some ps ∧
      rcGet ps.retryCount "a" = some 2 ∧ rcGet ps.retryCount "a" ≠ some 1 := by
  refine ⟨⟨["a"], [("a", 2)], 0⟩, by decide, by decide, by decide⟩

/-! ## Theorems: overlap flags (C10) -/

theorem finalizeChunk_nil (doc : SourceDocument) (st : Int) (ov : String) :
    finalizeChunk doc [] st ov = none := rfl

theorem finalizeChunk_overlapWithNext (doc : SourceDocument) (buf : List TokenChunk)
    (st : Int) (ov : String) (c : DocumentChunk)
    (h : finalizeChunk doc buf st ov = some c) : c.meta.overlapWithNext = true := by
  cases buf with
  | nil => rw [finalizeChunk_nil] at h; exact Option.noConfusion h
  | cons b bs =>
    rw [finalizeChunk] at h
    rw [dif_neg (List.cons_ne_nil b bs)] at h
    simp only [Option.some.injEq] at h
    rw [← h]

theorem ptGo_overlapWithNext (opts : ChunkerOptions) (doc : SourceDocument) :
    ∀ (toks buf : List TokenChunk) (len : Nat) (ov : String) (st : Int)
      (c : DocumentChunk), c ∈ ptGo opts doc toks buf len ov st →
      c.meta.overlapWithNext = true := by
  have hfin : ∀ (b : List TokenChunk) (s : Int) (o : String) (c : DocumentChunk),
      c ∈ (finalizeChunk doc b s o).toList → c.meta.overlapWithNext = true := by
    intro b s o c hc
    simp only [Option.mem_toList, Option.mem_def] at hc
    exact finalizeChunk_overlapWithNext doc b s o c hc
  intro toks
  induction toks with
  | nil =>
    intro buf len ov st c hc
    rw [ptGo] at hc
    exact hfin _ _ _ c hc
  | cons t ts ih =>
    intro buf len ov st c hc
    by_cases h1 : opts.maxLen < len + t.content.length ∧ buf ≠ []
    · rw [ptGo, if_pos h1] at hc
      simp only at hc
      split at hc
      · rcases List.mem_append.mp hc with h12 | h3
        · rcases List.mem_append.mp h12 with ha | hb
          · exact hfin _ _ _ c ha
          · exact hfin _ _ _ c hb
        · exact ih _ _ _ _ c h3
      · rcases List.mem_append.mp hc with ha | h3
        · exact hfin _ _ _ c ha
        · exact ih _ _ _ _ c h3
    · rw [ptGo, if_neg h1] at hc
      simp only at hc
      split at hc
      · rcases List.mem_append.mp hc with h12 | h3
        · rcases List.mem_append.mp h12 with ha | hb
          · cases ha
          · exact hfin _ _ _ c hb
        · exact ih _ _ _ _ c h3
      · rcases List.mem_append.mp hc with ha | h3
        · cases ha
        · exact ih _ _ _ _ c h3

/-- C10, confirmed: for a document whose content exceeds `maxLen`, every
chunk `chunkDocument` yields, the terminal one included, carries
`meta.overlapWithNext = true`; the chunker itself never clears it. -/
theorem c10_theorem (opts : ChunkerOptions) (doc : SourceDocument)
    (h : opts.maxLen < doc.content.length) :
    ∀ c ∈ chunkDocument opts doc, c.meta.overlapWithNext = true := by
  intro c hc
  rw [chunkDocument, if_neg (by omega)] at hc
  rcases List.mem_map.mp hc with ⟨⟨i, c0⟩, hmem, rfl⟩
  have hc0 : c0 ∈ processTokens opts doc (tokenizeDocument doc) := by
    rw [List.enum_eq_zip_range] at hmem
    exact (List.of_mem_zip hmem).2
  exact ptGo_overlapWithNext opts doc _ _ _ _ _ c0 hc0

/-- C10 witness: a concrete oversized plain-text document, every produced
chunk's `overlapWithNext` flag checked through `c10_theorem`. -/
theorem c10_witness :
    (⟨10, 8, 5⟩ : ChunkerOptions).maxLen <
        (⟨"d", "text", "# H\naaaaaaaaaa", 7⟩ : SourceDocument).content.length ∧
      (chunkDocument ⟨10, 8, 5⟩ ⟨"d", "text", "# H\naaaaaaaaaa", 7⟩).all
        (fun c => c.meta.overlapWithNext) = true := by
  refine ⟨by decide, ?_⟩
  rw [List.all_eq_true]
  intro c hc
  exact c10_theorem ⟨10, 8, 5⟩ ⟨"d", "text", "# H\naaaaaaaaaa", 7⟩ (by decide) c hc

/-! ## Theorems: overlap sentence trimming (C8) -/

/-- C8: the failing computation. A paragraph token of ten characters against
an overlap budget of 5 has the suffix `"aaaaa"`, which contains no sentence
boundary; `findSentenceBoundary` returns `content.length` (not 0) for it, so
`prepareOverlap` carries the whole untrimmed suffix instead of carrying
nothing as the spec requires. -/
theorem c8_theorem :
    findSentenceBoundary "aaaaa" = 5 ∧
      (prepareOverlap ⟨10, 8, 5⟩ [⟨0, 10, "paragraph", "aaaaaaaaaa"⟩]).overlapContent
        = "aaaaa" ∧
      ("aaaaa" : String) ≠ "" := by
  refine ⟨by decide, by decide, by decide⟩

/-! ## Theorems: chunk boundaries at maxLen (C3) -/

theorem splitBlankAux_no_nl (fuel : Nat) (cs acc : List Char)
    (h : ∀ c ∈ cs, c ≠ '\n') :
    splitBlankAux fuel cs acc = [acc.reverse ++ cs] := by
  induction fuel generalizing cs acc with
  | zero =>
    cases cs with
    | nil => simp [splitBlankAux]
    | cons c rest => rfl
  | succ fuel ih =>
    cases cs with
    | nil => simp [splitBlankAux]
    | cons c rest =>
      rw [splitBlankAux, if_neg (by exact absurd · (h c (List.mem_cons_self _ _)))]
      rw [ih rest (c :: acc) fun x hx => h x (List.mem_cons_of_mem _ hx)]
      simp

set_option maxRecDepth 8000 in
theorem tokenizePlainText_single (content : String)
    (hnl : ∀ c ∈ content.data, c ≠ '\n') (ht : jsTrimL content.data ≠ []) :
    tokenizePlainText content =
      [⟨0, (content.length : Int), "paragraph", content⟩] := by
  rw [tokenizePlainText, splitBlank, splitBlankAux_no_nl _ _ _ hnl]
  rw [List.reverse_nil, List.nil_append]
  rw [tptGo, if_pos ht, tptGo, Nat.zero_add]
  rfl

theorem findSentenceBoundary_pos (s : String) (h : s.data ≠ []) :
    0 < findSentenceBoundary s := by
  rw [findSentenceBoundary]
  split
  · exact List.length_pos.mpr h
  · omega

theorem jsSliceFromNeg_data (s : String) (n : Nat) (hn : n ≠ 0) :
    (jsSliceFromNeg s n).data = s.data.drop (s.data.length - n) := by
  rw [jsSliceFromNeg, if_neg hn]

theorem jsSliceFromNeg_ne_empty (s : String) (n : Nat) (hn : n ≠ 0)
    (hs : s.data ≠ []) : (jsSliceFromNeg s n).data ≠ [] := by
  rw [jsSliceFromNeg_data s n hn]
  intro hc
  have hlen := congrArg List.length hc
  simp only [List.length_drop, List.length_nil] at hlen
  have hcase : s.data.length = 0 ∨ n = 0 := by omega
  rcases hcase with h0 | h0
  · exact hs (List.length_eq_zero.mp h0)
  · exact hn h0

theorem prepareOverlap_single_para (opts : ChunkerOptions) (t : TokenChunk)
    (hov : opts.overlap ≠ 0) (hlen : ¬ t.content.length ≤ opts.overlap)
    (htype : t.type = "paragraph")
    (hb : 0 < findSentenceBoundary (jsSliceFromNeg t.content opts.overlap)) :
    ∃ tc : String,
      tc = jsSliceFromNeg t.content
        (findSentenceBoundary (jsSliceFromNeg t.content opts.overlap)) ∧
      prepareOverlap opts [t] =
        ⟨tc, t.endPos - (tc.length : Int), [{ t with content := tc }], tc.length⟩ := by
  refine ⟨_, rfl, ?_⟩
  rw [prepareOverlap, dif_neg (List.cons_ne_nil t [])]
  have hloop : ovlLoop [t].reverse opts.overlap =
      [{ t with content := (jsSliceFromNeg t.content (findSentenceBoundary (jsSliceFromNeg t.content opts.overlap))) }] := by
    rw [List.reverse_singleton, ovlLoop, if_neg hov, if_neg hlen,
      if_neg (by rw [htype]; decide), if_pos hb]
  simp only [hloop]
  rfl

theorem ptGo_single_flush (opts : ChunkerOptions) (doc : SourceDocument)
    (t : TokenChunk) (htl : opts.targetLen ≤ t.content.length) :
    ptGo opts doc [t] [] 0 "" 0 =
      (finalizeChunk doc [t] 0 "").toList ++
        (finalizeChunk doc (prepareOverlap opts [t]).nextBuffer
          (prepareOverlap opts [t]).nextStart
          (prepareOverlap opts [t]).overlapContent).toList := by
  rw [ptGo, if_neg (by simp)]
  simp only [List.nil_append]
  rw [if_pos (by simpa using htl), ptGo]

theorem finalizeChunk_cons_content (doc : SourceDocument) (b : TokenChunk)
    (bs : List TokenChunk) (st : Int) (ov : String) :
    ∃ c, finalizeChunk doc (b :: bs) st ov = some c ∧
      c.content = (if ov ≠ "" then ov ++ "\n" else "") ++
        String.intercalate "\n" ((b :: bs).map (·.content)) := by
  rw [finalizeChunk, dif_neg (List.cons_ne_nil b bs)]
  refine ⟨_, rfl, ?_⟩
  rfl

theorem string_ne_empty_of_data (s : String) (h : s.data ≠ []) : s ≠ "" := by
  intro hc
  exact h (by rw [hc])

theorem chunkDocument_one_over (opts : ChunkerOptions) (pid : String) (ts : Int)
    (content : String)
    (hnl : ∀ c ∈ content.data, c ≠ '\n') (htrim : jsTrimL content.data ≠ [])
    (hlen : content.length = opts.maxLen + 1)
    (hov0 : opts.overlap ≠ 0) (hovlt : opts.overlap < opts.maxLen + 1)
    (htarget : opts.targetLen ≤ opts.maxLen + 1) :
    ∃ c1 c2, chunkDocument opts ⟨pid, "text", content, ts⟩ = [c1, c2] ∧
      ∃ r, c2.content =
        (prepareOverlap opts
          [⟨0, (content.length : Int), "paragraph", content⟩]).overlapContent ++ r ∧
        (prepareOverlap opts
          [⟨0, (content.length : Int), "paragraph", content⟩]).overlapContent ≠ "" := by
  have hdata_ne : content.data ≠ [] := by
    intro hc
    have h0 : content.length = 0 := by
      show content.data.length = 0
      rw [hc]; rfl
    omega
  have hcontentlen : ¬ content.length ≤ opts.overlap := by omega
  have hslice_ne : (jsSliceFromNeg content opts.overlap).data ≠ [] :=
    jsSliceFromNeg_ne_empty content opts.overlap hov0 hdata_ne
  have hb : 0 < findSentenceBoundary (jsSliceFromNeg content opts.overlap) :=
    findSentenceBoundary_pos _ hslice_ne
  obtain ⟨tc, htc, hpre⟩ := prepareOverlap_single_para opts
    ⟨0, (content.length : Int), "paragraph", content⟩ hov0 hcontentlen rfl hb
  have htc_ne : tc ≠ "" := by
    refine string_ne_empty_of_data tc ?_
    rw [htc]
    exact jsSliceFromNeg_ne_empty content
      (findSentenceBoundary (jsSliceFromNeg content opts.overlap)) (by omega) hdata_ne
  have htok : tokenizeDocument ⟨pid, "text", content, ts⟩ =
      [⟨0, (content.length : Int), "paragraph", content⟩] := by
    rw [show tokenizeDocument ⟨pid, "text", content, ts⟩ =
      tokenizePlainText content from rfl]
    exact tokenizePlainText_single content hnl htrim
  obtain ⟨c1, hc1, hc1content⟩ := finalizeChunk_cons_content
    ⟨pid, "text", content, ts⟩ ⟨0, (content.length : Int), "paragraph", content⟩ [] 0 ""
  obtain ⟨c2, hc2, hc2content⟩ := finalizeChunk_cons_content
    ⟨pid, "text", content, ts⟩
    { start := 0, endPos := (content.length : Int), type := "paragraph", content := tc }
    [] ((⟨0, (content.length : Int), "paragraph", content⟩ : TokenChunk).endPos -
      (tc.length : Int)) tc
  rw [hpre]
  refine ⟨{ c1 with meta := { c1.meta with order := 0 } },
    { c2 with meta := { c2.meta with order := 1 } }, ?_, "\n" ++ tc, ?_, htc_ne⟩
  · rw [chunkDocument, if_neg (by show ¬ content.length ≤ opts.maxLen; omega), htok,
      processTokens,
      ptGo_single_flush opts _ _ (by show opts.targetLen ≤ content.length; omega),
      hpre]
    simp only []
    rw [hc1, hc2]
    rfl
  · show c2.content = tc ++ ("\n" ++ tc)
    rw [hc2content, if_pos htc_ne]
    rw [show String.intercalate "\n"
      (List.map (fun x => x.content)
        [({ start := 0, endPos := (content.length : Int), type := "paragraph",
            content := tc } : TokenChunk)]) = tc from rfl]
    rw [String.append_assoc]

/-- C3, corrected: (1) a document whose content is within `maxLen` yields
exactly one chunk spanning the whole document with both overlap flags false;
(2) a single-paragraph plain-text document one character over `maxLen` (no
newline, not all whitespace), under any configuration with a non-zero
overlap smaller than the document and a reachable `targetLen`, yields
exactly two chunks, the second beginning with the overlap text computed from
the first chunk's buffer. A one-character-over document that tokenizes to
almost nothing can instead yield a single chunk (see the counterexample),
which is what restricts (2) against the original claim. -/
theorem c3_theorem :
    (∀ (opts : ChunkerOptions) (doc : SourceDocument),
      doc.content.length ≤ opts.maxLen →
      ∃ c, chunkDocument opts doc = [c] ∧ c.content = doc.content ∧ c.start = 0 ∧
        c.endPos = (doc.content.length : Int) ∧ c.meta.overlapWithPrev = false ∧
        c.meta.overlapWithNext = false) ∧
    (∀ (opts : ChunkerOptions) (pid : String) (ts : Int) (content : String),
      (∀ c ∈ content.data, c ≠ '\n') → jsTrimL content.data ≠ [] →
      content.length = opts.maxLen + 1 → opts.overlap ≠ 0 →
      opts.overlap < opts.maxLen + 1 → opts.targetLen ≤ opts.maxLen + 1 →
      ∃ c1 c2, chunkDocument opts ⟨pid, "text", content, ts⟩ = [c1, c2] ∧
        ∃ r, c2.content =
          (prepareOverlap opts
            [⟨0, (content.length : Int), "paragraph", content⟩]).overlapContent ++ r ∧
          (prepareOverlap opts
            [⟨0, (content.length : Int), "paragraph", content⟩]).overlapContent ≠ "") := by
  constructor
  · intro opts doc h
    rw [chunkDocument, if_pos h]
    exact ⟨createSingleChunk doc, rfl, rfl, rfl, rfl, rfl, rfl⟩
  · intro opts pid ts content hnl htrim hlen hov0 hovlt htarget
    exact chunkDocument_one_over opts pid ts content hnl htrim hlen hov0 hovlt htarget

/-- C3 witness: a two-character document is a single chunk with both flags
false, and an 11-character single-paragraph document under a `maxLen = 10`
configuration splits into two chunks with the second carrying the computed
overlap, both via `c3_theorem`. -/
theorem c3_witness :
    (∃ c, chunkDocument defaultOptions ⟨"d", "text", "hi", 3⟩ = [c] ∧
      c.content = "hi" ∧ c.start = 0 ∧
      c.endPos = ((("hi" : String).length : Nat) : Int) ∧
      c.meta.overlapWithPrev = false ∧ c.meta.overlapWithNext = false) ∧
    (∃ c1 c2, chunkDocument ⟨10, 8, 5⟩
        ⟨"d", "text", ⟨List.replicate 11 'a'⟩, 3⟩ = [c1, c2] ∧
      ∃ r, c2.content =
        (prepareOverlap ⟨10, 8, 5⟩
          [⟨0, ((⟨List.replicate 11 'a'⟩ : String).length : Int), "paragraph",
            ⟨List.replicate 11 'a'⟩⟩]).overlapContent ++ r ∧
        (prepareOverlap ⟨10, 8, 5⟩
          [⟨0, ((⟨List.replicate 11 'a'⟩ : String).length : Int), "paragraph",
            ⟨List.replicate 11 'a'⟩⟩]).overlapContent ≠ "") := by
  constructor
  · exact c3_theorem.1 defaultOptions ⟨"d", "text", "hi", 3⟩ (by decide)
  · exact c3_theorem.2 ⟨10, 8, 5⟩ "d" 3 ⟨List.replicate 11 'a'⟩
      (by decide) (by decide) (by decide) (by decide) (by decide) (by decide)

/-- C3 counterexample: the 11-character document `"a"` followed by ten
newlines is one character over `maxLen = 10`, yet chunking yields exactly
one chunk, refuting "one character over maxLen yields at least two
chunks". -/
theorem c3_counterexample :
    (⟨"d", "text", ⟨'a' :: List.replicate 10 '\n'⟩, 0⟩ : SourceDocument).content.length
        = (⟨10, 8, 5⟩ : ChunkerOptions).maxLen + 1 ∧
      (chunkDocument ⟨10, 8, 5⟩
        ⟨"d", "text", ⟨'a' :: List.replicate 10 '\n'⟩, 0⟩).length = 1 ∧
      ¬ 2 ≤ (chunkDocument ⟨10, 8, 5⟩
        ⟨"d", "text", ⟨'a' :: List.replicate 10 '\n'⟩, 0⟩).length := by
  refine ⟨by decide, by decide, by decide⟩

/-! ## Theorems: chunk id stability (C4) -/

theorem finalizeChunk_id (doc : SourceDocument) (buf : List TokenChunk)
    (st : Int) (ov : String) (c : DocumentChunk)
    (h : finalizeChunk doc buf st ov = some c) :
    c.id = chunkIdFor doc.id c.content := by
  cases buf with
  | nil => rw [finalizeChunk_nil] at h; exact Option.noConfusion h
  | cons b bs =>
    rw [finalizeChunk, dif_neg (List.cons_ne_nil b bs)] at h
    simp only [Option.some.injEq] at h
    rw [← h]
    rfl

theorem chunkIdFor_inj_iff (p c1 c2 : String) :
    chunkIdFor p c1 = chunkIdFor p c2 ↔
      (hashContent c1).take 12 = (hashContent c2).take 12 := by
  constructor
  · intro h
    have hd := congrArg String.data h
    simp only [chunkIdFor, String.data_append] at hd
    have := List.append_cancel_left hd
    ext1
    exact this
  · intro h
    rw [chunkIdFor, chunkIdFor, h]

theorem finalizeChunk_ids_doc_irrel (d1 d2 : SourceDocument) (hid : d1.id = d2.id)
    (buf : List TokenChunk) (st : Int) (ov : String) :
    (finalizeChunk d1 buf st ov).toList.map (·.id) =
      (finalizeChunk d2 buf st ov).toList.map (·.id) := by
  cases buf with
  | nil => rw [finalizeChunk_nil, finalizeChunk_nil]
  | cons b bs =>
    rw [finalizeChunk, finalizeChunk, dif_neg (List.cons_ne_nil b bs),
      dif_neg (List.cons_ne_nil b bs)]
    simp only [Option.toList_some, List.map_cons, List.map_nil]
    rw [hid]

theorem ptGo_ids_doc_irrel (opts : ChunkerOptions) (d1 d2 : SourceDocument)
    (hid : d1.id = d2.id) :
    ∀ (toks buf : List TokenChunk) (len : Nat) (ov : String) (st : Int),
      (ptGo opts d1 toks buf len ov st).map (·.id) =
        (ptGo opts d2 toks buf len ov st).map (·.id) := by
  intro toks
  induction toks with
  | nil =>
    intro buf len ov st
    rw [ptGo, ptGo]
    exact finalizeChunk_ids_doc_irrel d1 d2 hid buf st ov
  | cons t ts ih =>
    intro buf len ov st
    by_cases h1 : opts.maxLen < len + t.content.length ∧ buf ≠ []
    · rw [ptGo, ptGo, if_pos h1, if_pos h1]
      simp only []
      split
      · simp only [List.map_append]
        rw [finalizeChunk_ids_doc_irrel d1 d2 hid, finalizeChunk_ids_doc_irrel d1 d2 hid,
          ih]
      · simp only [List.map_append]
        rw [finalizeChunk_ids_doc_irrel d1 d2 hid, ih]
    · rw [ptGo, ptGo, if_neg h1, if_neg h1]
      simp only []
      split
      · simp only [List.map_append]
        rw [finalizeChunk_ids_doc_irrel d1 d2 hid, ih]
      · simp only [List.map_append]
        rw [ih]

theorem map_id_enum_orderUpdate (l : List DocumentChunk) :
    (l.enum.map fun ic =>
      { ic.2 with meta := { ic.2.meta with order := ic.1 } }).map (·.id) =
      l.map (·.id) := by
  rw [List.map_map]
  have : ((fun c : DocumentChunk => c.id) ∘ fun ic : Nat × DocumentChunk =>
      { ic.2 with meta := { ic.2.meta with order := ic.1 } }) =
      (fun c : DocumentChunk => c.id) ∘ Prod.snd := rfl
  rw [this, ← List.map_map, List.enum_map_snd]

/-- C4, corrected: (1) the sequence of chunk ids depends only on the parent
id, the content, the mime class and the configuration (in particular it is
reproduced identically on a re-run, whatever `updatedAt` is); (2) every
chunk id produced by `finalizeChunk` is `parentId ++ ":" ++` the first 12
hex characters of the SHA-1 of the chunk's assembled content; (3) two chunk
contents under the same parent receive the same id exactly when their
truncated hashes agree, so any edit that changes the truncated hash of an
affected chunk's content changes its id. -/
theorem c4_theorem :
    (∀ (opts : ChunkerOptions) (d1 d2 : SourceDocument),
      d1.id = d2.id → d1.content = d2.content → d1.mime = d2.mime →
      chunkIds opts d1 = chunkIds opts d2) ∧
    (∀ (doc : SourceDocument) (buf : List TokenChunk) (st : Int) (ov : String)
      (c : DocumentChunk), finalizeChunk doc buf st ov = some c →
      c.id = chunkIdFor doc.id c.content) ∧
    (∀ p c1 c2 : String, chunkIdFor p c1 = chunkIdFor p c2 ↔
      (hashContent c1).take 12 = (hashContent c2).take 12) := by
  refine ⟨?_, finalizeChunk_id, chunkIdFor_inj_iff⟩
  rintro opts ⟨i1, m1, c1, t1⟩ ⟨i2, m2, c2, t2⟩ hid hcontent hmime
  simp only at hid hcontent hmime
  subst hid; subst hcontent; subst hmime
  rw [chunkIds, chunkIds, chunkDocument, chunkDocument]
  simp only []
  split
  · simp only [List.map_cons, List.map_nil]
    rfl
  · rw [processTokens, processTokens, map_id_enum_orderUpdate, map_id_enum_orderUpdate]
    rw [show tokenizeDocument ⟨i1, m1, c1, t2⟩ = tokenizeDocument ⟨i1, m1, c1, t1⟩ from rfl]
    exact ptGo_ids_doc_irrel opts ⟨i1, m1, c1, t1⟩ ⟨i1, m1, c1, t2⟩ rfl _ _ _ _ _

/-- C4 counterexample: two documents with identical parent id and content
but different mime classes (markdown vs text) produce different chunk-id
sequences (three chunks against two), refuting "the sequence of chunk ids
depends only on parentId, content and configuration". -/
theorem c4_counterexample :
    (⟨"d", "markdown", "# H\naaaaaaaaaa", 0⟩ : SourceDocument).id =
        (⟨"d", "text", "# H\naaaaaaaaaa", 0⟩ : SourceDocument).id ∧
      (⟨"d", "markdown", "# H\naaaaaaaaaa", 0⟩ : SourceDocument).content =
        (⟨"d", "text", "# H\naaaaaaaaaa", 0⟩ : SourceDocument).content ∧
      chunkIds ⟨10, 8, 5⟩ ⟨"d", "markdown", "# H\naaaaaaaaaa", 0⟩ ≠
        chunkIds ⟨10, 8, 5⟩ ⟨"d", "text", "# H\naaaaaaaaaa", 0⟩ := by
  refine ⟨rfl, rfl, fun h => ?_⟩
  have h3 : (chunkIds ⟨10, 8, 5⟩ ⟨"d", "markdown", "# H\naaaaaaaaaa", 0⟩).length = 3 := by
    decide
  have h2 : (chunkIds ⟨10, 8, 5⟩ ⟨"d", "text", "# H\naaaaaaaaaa", 0⟩).length = 2 := by
    decide
  rw [h, h2] at h3
  exact absurd h3 (by decide)

/-- C4 witness: identical inputs that differ only in `updatedAt` reproduce
identical id sequences, and a concrete finalized chunk's id has the
`parentId:truncated-hash` shape, via `c4_theorem`. -/
theorem c4_witness :
    chunkIds ⟨10, 8, 5⟩ ⟨"d", "markdown", "# H\naaaaaaaaaa", 11⟩ =
        chunkIds ⟨10, 8, 5⟩ ⟨"d", "markdown", "# H\naaaaaaaaaa", 99⟩ ∧
      (finalizeChunk ⟨"d", "text", "hi", 0⟩ [⟨0, 2, "paragraph", "hi"⟩] 0 "").elim
        False (fun c => c.id = chunkIdFor "d" c.content) := by
  refine ⟨c4_theorem.1 ⟨10, 8, 5⟩ _ _ rfl rfl rfl, ?_⟩
  rcases hfc : finalizeChunk ⟨"d", "text", "hi", 0⟩ [⟨0, 2, "paragraph", "hi"⟩] 0 ""
    with _ | c
  · have hsome : (finalizeChunk ⟨"d", "text", "hi", 0⟩
        [⟨0, 2, "paragraph", "hi"⟩] 0 "").isSome = true := rfl
    rw [hfc] at hsome
    exact Bool.noConfusion hsome
  · exact c4_theorem.2.1 ⟨"d", "text", "hi", 0⟩ [⟨0, 2, "paragraph", "hi"⟩] 0 "" c hfc

/-! ## Theorems: batch success policy (C6) -/

/-- C6, confirmed: with a live session of `t > 0` total actions, the run is
declared successful exactly when the processed fraction is at least 0.8, or
every accumulated error is of the known quota category and at least one
action was processed. -/
theorem c6_theorem (p t : Nat) (errs : List String) (ht : 0 < t) :
    syncSuccessDecision p (some t) errs = true ↔
      ((4 : ℚ) / 5 ≤ (p : ℚ) / (t : ℚ) ∨
        (errs.all isQuotaError = true ∧ 1 ≤ p)) := by
  have htq : (0 : ℚ) < (t : ℚ) := by exact_mod_cast ht
  simp only [syncSuccessDecision, if_neg (Nat.pos_iff_ne_zero.mp ht), Bool.or_eq_true,
    Bool.and_eq_true, decide_eq_true_eq]
  constructor
  · rintro (h | ⟨hq, hpos⟩)
    · exact Or.inl h
    · refine Or.inr ⟨hq, ?_⟩
      rw [lt_div_iff₀ htq, zero_mul] at hpos
      exact_mod_cast Nat.one_le_iff_ne_zero.mpr (by exact_mod_cast Nat.pos_iff_ne_zero.mp (by exact_mod_cast hpos))
  · rintro (h | ⟨hq, hp⟩)
    · exact Or.inl h
    · refine Or.inr ⟨hq, ?_⟩
      rw [lt_div_iff₀ htq, zero_mul]
      exact_mod_cast Nat.lt_of_lt_of_le Nat.zero_lt_one hp

/-- C6 witness: 4 of 5 actions processed with no errors is a success, and 1
of 5 with only a quota error is a success, via `c6_theorem`. -/
theorem c6_witness :
    syncSuccessDecision 4 (some 5) [] = true ∧
      syncSuccessDecision 1 (some 5) ["Quota exceeded: credits"] = true := by
  constructor
  · exact (c6_theorem 4 5 [] (by decide)).mpr (Or.inl (by norm_num))
  · exact (c6_theorem 1 5 ["Quota exceeded: credits"] (by decide)).mpr
      (Or.inr ⟨by decide, le_refl 1⟩)

/-! ## Theorems: corrupted session file (C9) -/

/-- C9, confirmed: an unparseable or structurally invalid persisted session
record makes `initializeSession` create a fresh running session with
`processedActions = 0` and the given action list, rather than failing. -/
theorem c9_theorem (file : SessionFile) (actions : List DeltaAction)
    (batchSize : Nat) (now : Int) (freshId : String)
    (h : (∃ e, file = some (Except.error e)) ∨
      (∃ j, file = some (Except.ok j) ∧ isValidSession j = false)) :
    initializeSession file actions batchSize now freshId =
        freshSession actions batchSize now freshId ∧
      (initializeSession file actions batchSize now freshId).processedActions = 0 ∧
      (initializeSession file actions batchSize now freshId).remainingActions = actions ∧
      (initializeSession file actions batchSize now freshId).state = "running" := by
  have hload : loadSession file = none := by
    rcases h with ⟨e, rfl⟩ | ⟨j, rfl, hj⟩
    · rfl
    · simp [loadSession, hj]
  refine ⟨?_, ?_, ?_, ?_⟩ <;> simp [initializeSession, hload, freshSession]

/-- C9 witness: a session file whose `id` field is a number (wrong type) is
discarded and a fresh session over one action results, via `c9_theorem`. -/
theorem c9_witness :
    (initializeSession (some (Except.ok (JValue.jobj [("id", JValue.jnum 3)])))
        [{ action := "upsert", id := "d1" }] 10 5 "s1").processedActions = 0 ∧
      (initializeSession (some (Except.ok (JValue.jobj [("id", JValue.jnum 3)])))
        [{ action := "upsert", id := "d1" }] 10 5 "s1").remainingActions =
        [{ action := "upsert", id := "d1" }] ∧
      (initializeSession (some (Except.ok (JValue.jobj [("id", JValue.jnum 3)])))
        [{ action := "upsert", id := "d1" }] 10 5 "s1").state = "running" := by
  have h := c9_theorem (some (Except.ok (JValue.jobj [("id", JValue.jnum 3)])))
    [{ action := "upsert", id := "d1" }] 10 5 "s1"
    (Or.inr ⟨JValue.jobj [("id", JValue.jnum 3)], rfl, by decide⟩)
  exact ⟨h.2.1, h.2.2.1, h.2.2.2⟩
